import Mathlib

/-!
Verification of the landing-page data pipeline of the asylum-hrf-fe
repository: the radix-64 Decoder, the Dataset Exporter wrapped by the
useDownloadData hook, and the two Landing-page handlers scrollToTop and
handleDownladData from src/components/pages/Landing/index.jsx.

The Decoder (utils/decodeBase64.js) and the Exporter hook
(hooks/useDownloadData.js) are referenced by the Landing page but their
source files are not part of the repository snapshot, so they are modelled
from the specification (sections 3, 4.1, 4.2 and 7 of spec.md): standard
radix-64 alphabet, trailing padding of at most two markers, typed errors
DecodeError / SourceUnavailableError, and a save-file host primitive
taking content bytes and a content-type hint.
-/

/-- Modelled from the spec: the fixed 64-character alphabet of the
encoding (section 3: characters belong to the fixed alphabet of the
encoding plus an optional padding marker; section 9: standard alphabet
as the default). -/
def base64Alphabet : List Char :=
  String.toList "ABCDEFGHIJKLMNOPQRSTUVWXYZabcdefghijklmnopqrstuvwxyz0123456789+/"

/-- Lookup of a character in a list, returning its position. -/
def charToIndexAux (c : Char) : List Char → ℕ → Option ℕ
  | [], _ => none
  | a :: rest, i => if a = c then some i else charToIndexAux c rest (i + 1)

/-- Modelled from the spec: the sextet value of an alphabet character,
none when the character is outside the alphabet. -/
def charToIndex (c : Char) : Option ℕ :=
  charToIndexAux c base64Alphabet 0

/-- Modelled from the spec: the alphabet character of a sextet value. -/
def indexToChar (i : ℕ) : Char :=
  base64Alphabet.getD i '?'

/-- Modelled from the spec: a character is legal in an EncodedPayload when
it belongs to the alphabet or is the padding marker. -/
def legalB64Char (c : Char) : Bool :=
  (charToIndex c).isSome || c == '='

/-- Modelled from the spec (section 7): the error taxonomy of the Decoder,
one constructor per offending condition named in section 4.1. -/
inductive DecodeError
  | invalidCharacter
  | invalidLength
  | invalidPaddingPosition
deriving DecidableEq

/-- Modelled from the spec: grouping of input bytes into sextet values,
three bytes to four sextets, with the final one- or two-byte remainder
contributing two or three sextets. Used by the test-fixture Encode. -/
def bytesToSextets : List ℕ → List ℕ
  | [] => []
  | [b0] => [b0 / 4, b0 % 4 * 16]
  | [b0, b1] => [b0 / 4, b0 % 4 * 16 + b1 / 16, b1 % 16 * 4]
  | b0 :: b1 :: b2 :: rest =>
      b0 / 4 :: (b0 % 4 * 16 + b1 / 16) :: (b1 % 16 * 4 + b2 / 64) :: b2 % 64 ::
        bytesToSextets rest

/-- Modelled from the spec: regrouping of sextet values into bytes, four
sextets to three bytes, a trailing three- or two-sextet remainder giving
two bytes or one byte. -/
def sextetsToBytes : List ℕ → List ℕ
  | s0 :: s1 :: s2 :: s3 :: rest =>
      (s0 * 4 + s1 / 16) :: (s1 % 16 * 16 + s2 / 4) :: (s2 % 4 * 64 + s3) ::
        sextetsToBytes rest
  | [s0, s1, s2] => [s0 * 4 + s1 / 16, s1 % 16 * 16 + s2 / 4]
  | [s0, s1] => [s0 * 4 + s1 / 16]
  | _ => []

/-- Modelled from the spec: the number of padding markers appended when
encoding a byte sequence of the given length. -/
def padLen (n : ℕ) : ℕ :=
  if n % 3 == 1 then 2 else if n % 3 == 2 then 1 else 0

/-- Modelled from the spec (section 8): Encode, the inverse encoding
function used only in test fixtures — alphabet characters of the sextets
followed by the padding markers. -/
def encodeBase64 (b : List ℕ) : String :=
  String.mk ((bytesToSextets b).map indexToChar ++
    List.replicate (padLen b.length) '=')

/-- Modelled from the spec: conversion of a run of alphabet characters to
their sextet values; none as soon as a character is outside the alphabet. -/
def decodeIndices : List Char → Option (List ℕ)
  | [] => some []
  | c :: rest =>
      match charToIndex c, decodeIndices rest with
      | some i, some is => some (i :: is)
      | _, _ => none

/-- Modelled from the spec (section 4.1): the Decoder on a character list.
Validates that every character is from the alphabet plus the padding
marker (else invalidCharacter), that padding markers occur only as a
trailing run of at most two (else invalidPaddingPosition), and that the
length is a multiple of the four-character block size (else
invalidLength); then converts the sextet groups back to bytes. -/
def decodeChars (cs : List Char) : Except DecodeError (List ℕ) :=
  if cs.all legalB64Char then
    let body := cs.takeWhile (fun c => !(c == '='))
    let pad := cs.dropWhile (fun c => !(c == '='))
    if pad.all (fun c => c == '=') then
      if pad.length ≤ 2 then
        if cs.length % 4 = 0 then
          match decodeIndices body with
          | some sextets => Except.ok (sextetsToBytes sextets)
          | none => Except.error DecodeError.invalidCharacter
        else Except.error DecodeError.invalidLength
      else Except.error DecodeError.invalidPaddingPosition
    else Except.error DecodeError.invalidPaddingPosition
  else Except.error DecodeError.invalidCharacter

/-- Modelled from the spec: decodeBase64, the Decoder of
utils/decodeBase64.js — a pure function from an EncodedPayload string to
DecodedContent bytes or a DecodeError. -/
def decodeBase64 (s : String) : Except DecodeError (List ℕ) :=
  decodeChars s.toList

/-- Modelled from the spec (section 7): failures of the Exporter — the
dataset source is unreachable, or the Decoder failed and its DecodeError
is forwarded unchanged, or the host refused the save. -/
inductive ExportError
  | sourceUnavailable
  | decode (e : DecodeError)
  | saveFailed
deriving DecidableEq

/-- Modelled from the spec (section 6): one invocation of the save-file
host primitive, parameterized by content bytes and a MIME content-type
hint. The suggested filename is left abstract. -/
structure SaveCall where
  content : List ℕ
  contentType : String
deriving DecidableEq

/-- Modelled from the spec (section 4.2): downloadCSV of
hooks/useDownloadData.js, parameterized by its dataset source for
testability (none models an unreachable source). It retrieves the
EncodedPayload, invokes the Decoder, and on success hands the decoded
bytes to the save primitive as text/csv; the first component lists the
save-primitive invocations, the second is the outcome reported to the
caller. -/
def downloadCSV (source : Option String) :
    List SaveCall × Except ExportError Unit :=
  match source with
  | none => ([], Except.error ExportError.sourceUnavailable)
  | some payload =>
      match decodeBase64 payload with
      | Except.error e => ([], Except.error (ExportError.decode e))
      | Except.ok bytes =>
          ([{ content := bytes, contentType := "text/csv" }], Except.ok ())

/-- Modelled from the spec: the Decoder embedded in an explicit-world
form, to express that a call neither reads nor writes any ambient state
(section 4.1: pure function, no side effects, no I/O). -/
def decodeBase64Eff (W : Type) (p : String) (w : W) :
    W × Except DecodeError (List ℕ) :=
  (w, decodeBase64 p)

/-- Modelled from the spec: one invocation of downloadCSV threaded
through the only observable host state, the log of save-file actions
already triggered; the invocation appends its own save calls and reports
its outcome. -/
def downloadCSVEff (source : Option String) (log : List SaveCall) :
    List SaveCall × Except ExportError Unit :=
  (log ++ (downloadCSV source).1, (downloadCSV source).2)

/-- Modelled from the spec: a sequence of independent downloadCSV
invocations (one per click), each threading the save-call log of the
previous one. -/
def runClicks (sources : List (Option String)) (log : List SaveCall) :
    List SaveCall :=
  match sources with
  | [] => log
  | s :: rest => runClicks rest (downloadCSVEff s log).1

/-- One tick of the browser scroll position: window.scrollBy adds the
step, and the browser clamps the position so it never goes above the top
of the page (below 0). Scroll positions are exact rationals. -/
def scrollTick (step y : ℚ) : ℚ :=
  max 0 (y + step)

/-- The interval loop of scrollToTop in Landing/index.jsx, with explicit
fuel counting the ticks observed: at each tick, if window.scrollY is 0
the interval is cleared (true), otherwise window.scrollBy(0, scrollStep)
runs and the loop continues. Returns whether the interval was cleared
within the given number of ticks, and the final scroll position. -/
def scrollLoop (step : ℚ) : ℕ → ℚ → Bool × ℚ
  | 0, y => (false, y)
  | fuel + 1, y =>
      if y = 0 then (true, y) else scrollLoop step fuel (scrollTick step y)

/-- The scrollToTop handler: it reads window.scrollY once at click time,
fixes scrollStep = -scrollY / 20, and starts the interval loop at the
current position. -/
def scrollToTop (scrollY : ℚ) (fuel : ℕ) : Bool × ℚ :=
  scrollLoop (-(scrollY / 20)) fuel scrollY

/-- The handleDownladData click handler of Landing/index.jsx: it runs the
downloadCSV operation (an effectful callable taking no arguments,
modelled as a state transformer returning an outcome) exactly once as a
bare statement, keeping the resulting state and discarding the returned
outcome. -/
def handleDownladData {σ α : Type} (dl : σ → α × σ) (s : σ) : σ :=
  (dl s).2

/-- Regrouping sextets into bytes undoes the grouping of bytes into
sextets, for byte-valued inputs. -/
theorem sextetsToBytes_bytesToSextets (b : List ℕ) (hb : ∀ x ∈ b, x < 256) :
    sextetsToBytes (bytesToSextets b) = b := by
  match b with
  | [] => rfl
  | [b0] =>
      have h0 : b0 < 256 := hb b0 (by simp)
      simp only [bytesToSextets, sextetsToBytes, List.cons.injEq, and_true]
      omega
  | [b0, b1] =>
      have h0 : b0 < 256 := hb b0 (by simp)
      have h1 : b1 < 256 := hb b1 (by simp)
      simp only [bytesToSextets, sextetsToBytes, List.cons.injEq, and_true]
      omega
  | b0 :: b1 :: b2 :: rest =>
      have h0 : b0 < 256 := hb b0 (by simp)
      have h1 : b1 < 256 := hb b1 (by simp)
      have h2 : b2 < 256 := hb b2 (by simp)
      have ih := sextetsToBytes_bytesToSextets rest
        (fun x hx => hb x (by simp [hx]))
      simp only [bytesToSextets, sextetsToBytes, ih, List.cons.injEq, and_true]
      omega

/-- Every sextet produced from byte-valued input is below 64. -/
theorem bytesToSextets_lt (b : List ℕ) (hb : ∀ x ∈ b, x < 256) :
    ∀ s ∈ bytesToSextets b, s < 64 := by
  match b with
  | [] => simp [bytesToSextets]
  | [b0] =>
      have h0 : b0 < 256 := hb b0 (by simp)
      simp only [bytesToSextets, List.mem_cons, List.not_mem_nil, or_false]
      rintro s (rfl | rfl) <;> omega
  | [b0, b1] =>
      have h0 : b0 < 256 := hb b0 (by simp)
      have h1 : b1 < 256 := hb b1 (by simp)
      simp only [bytesToSextets, List.mem_cons, List.not_mem_nil, or_false]
      rintro s (rfl | rfl | rfl) <;> omega
  | b0 :: b1 :: b2 :: rest =>
      have h0 : b0 < 256 := hb b0 (by simp)
      have h1 : b1 < 256 := hb b1 (by simp)
      have h2 : b2 < 256 := hb b2 (by simp)
      have ih := bytesToSextets_lt rest (fun x hx => hb x (by simp [hx]))
      simp only [bytesToSextets, List.mem_cons]
      rintro s (rfl | rfl | rfl | rfl | hs)
      · omega
      · omega
      · omega
      · omega
      · exact ih s hs

/-- The alphabet lookup inverts the alphabet indexing below 64. -/
theorem charToIndex_indexToChar : ∀ i < 64, charToIndex (indexToChar i) = some i := by
  decide

/-- No alphabet character below index 64 is the padding marker. -/
theorem indexToChar_ne_pad : ∀ i < 64, indexToChar i ≠ '=' := by
  decide

/-- decodeIndices recovers the sextet list from its alphabet characters. -/
theorem decodeIndices_map (is : List ℕ) (h : ∀ s ∈ is, s < 64) :
    decodeIndices (is.map indexToChar) = some is := by
  induction is with
  | nil => rfl
  | cons s rest ih =>
      have hs : s < 64 := h s (by simp)
      have := ih (fun x hx => h x (by simp [hx]))
      simp only [List.map_cons, decodeIndices, charToIndex_indexToChar s hs, this]

/-- Splitting at the first padding marker keeps the whole padding-free
part of an encoded payload as the body. -/
theorem takeWhile_notpad (l : List Char) (p : ℕ) (h : ∀ c ∈ l, c ≠ '=') :
    (l ++ List.replicate p '=').takeWhile (fun c => !(c == '=')) = l := by
  induction l with
  | nil =>
      cases p with
      | zero => rfl
      | succ q => simp [List.replicate_succ, List.takeWhile_cons]
  | cons a rest ih =>
      have ha : a ≠ '=' := h a (by simp)
      simp only [List.cons_append, List.takeWhile_cons, ha, bne_iff_ne, ne_eq,
        not_false_eq_true, List.cons.injEq, true_and, beq_iff_eq, if_true,
        Bool.not_eq_true]
      simp only [show (a == '=') = false by simpa using ha, Bool.not_false,
        if_true]
      exact congrArg (a :: ·) (ih (fun c hc => h c (by simp [hc])))

/-- Splitting at the first padding marker leaves exactly the padding run. -/
theorem dropWhile_notpad (l : List Char) (p : ℕ) (h : ∀ c ∈ l, c ≠ '=') :
    (l ++ List.replicate p '=').dropWhile (fun c => !(c == '=')) =
      List.replicate p '=' := by
  induction l with
  | nil =>
      cases p with
      | zero => rfl
      | succ q => simp [List.replicate_succ, List.dropWhile_cons]
  | cons a rest ih =>
      have ha : a ≠ '=' := h a (by simp)
      simp only [List.cons_append, List.dropWhile_cons,
        show (a == '=') = false by simpa using ha, Bool.not_false, if_true]
      exact ih (fun c hc => h c (by simp [hc]))

/-- The sextet count plus the padding count is a multiple of the
four-character block size. -/
theorem bytesToSextets_len_mod4 (b : List ℕ) :
    ((bytesToSextets b).length + padLen b.length) % 4 = 0 := by
  match b with
  | [] => rfl
  | [b0] => simp [bytesToSextets, padLen]
  | [b0, b1] => simp [bytesToSextets, padLen]
  | b0 :: b1 :: b2 :: rest =>
      have ih := bytesToSextets_len_mod4 rest
      have hpad : padLen (rest.length + 1 + 1 + 1) = padLen rest.length := by
        have h3 : (rest.length + 1 + 1 + 1) % 3 = rest.length % 3 := by omega
        unfold padLen
        rw [h3]
      simp only [bytesToSextets, List.length_cons, hpad]
      omega

/-- The padding appended by Encode never exceeds two markers. -/
theorem padLen_le_two (n : ℕ) : padLen n ≤ 2 := by
  unfold padLen
  split
  · omega
  · split <;> omega
/-- Helper giving all branch conditions of the Decoder on an encoded
payload, then reducing it. -/
theorem decodeChars_encode (b : List ℕ) (hb : ∀ x ∈ b, x < 256) :
    decodeChars ((bytesToSextets b).map indexToChar ++
      List.replicate (padLen b.length) '=') = Except.ok b := by
  have hs := bytesToSextets_lt b hb
  have hnp : ∀ c ∈ (bytesToSextets b).map indexToChar, c ≠ '=' := by
    intro c hc
    rcases List.mem_map.mp hc with ⟨s, hsm, rfl⟩
    exact indexToChar_ne_pad s (hs s hsm)
  have hall : ((bytesToSextets b).map indexToChar ++
      List.replicate (padLen b.length) '=').all legalB64Char = true := by
    rw [List.all_eq_true]
    intro c hc
    rcases List.mem_append.mp hc with h | h
    · rcases List.mem_map.mp h with ⟨s, hsm, rfl⟩
      simp [legalB64Char, charToIndex_indexToChar s (hs s hsm)]
    · simp [legalB64Char, List.eq_of_mem_replicate h]
  have hpall : (List.replicate (padLen b.length) '=').all
      (fun c => c == '=') = true := by
    rw [List.all_eq_true]
    intro c hc
    simp [List.eq_of_mem_replicate hc]
  have hplen : (List.replicate (padLen b.length) '=').length ≤ 2 := by
    rw [List.length_replicate]
    exact padLen_le_two _
  have hlen : ((bytesToSextets b).map indexToChar ++
      List.replicate (padLen b.length) '=').length % 4 = 0 := by
    rw [List.length_append, List.length_map, List.length_replicate]
    exact bytesToSextets_len_mod4 b
  simp only [decodeChars]
  rw [takeWhile_notpad _ _ hnp, dropWhile_notpad _ _ hnp]
  rw [if_pos hall, if_pos hpall, if_pos hplen, if_pos hlen]
  rw [decodeIndices_map _ hs]
  simp [sextetsToBytes_bytesToSextets b hb]

/-- A character sitting after a padding marker is kept in the padding
part of the split. -/
theorem mem_dropWhile_pad (l1 l2 : List Char) (c : Char) (hc : c ∈ l2) :
    c ∈ (l1 ++ '=' :: l2).dropWhile (fun c => !(c == '=')) := by
  induction l1 with
  | nil =>
      simp only [List.nil_append, List.dropWhile_cons]
      norm_num
      exact Or.inr hc
  | cons a t ih =>
      simp only [List.cons_append, List.dropWhile_cons]
      by_cases ha : a = '='
      · simp only [ha]
        norm_num
        tauto
      · simp only [show (a == '=') = false by simpa using ha, Bool.not_false,
          if_true]
        exact ih

/-- Later invocations of the Exporter only append their own save calls:
running a click sequence from any log appends the same suffix. -/
theorem runClicks_append (srcs : List (Option String)) (log : List SaveCall) :
    runClicks srcs log = log ++ runClicks srcs [] := by
  induction srcs generalizing log with
  | nil => simp [runClicks]
  | cons s rest ih =>
      simp only [runClicks, downloadCSVEff]
      rw [ih (log ++ (downloadCSV s).1), ih (([] : List SaveCall) ++ (downloadCSV s).1)]
      simp [List.append_assoc]

/-- The interval loop reaches and detects scroll position zero within
k + 1 ticks whenever the remaining distance is at most k steps. -/
theorem scrollLoop_clears (k : ℕ) (y s : ℚ) (hy : 0 ≤ y) (hs : 0 ≤ s)
    (hk : y ≤ (k : ℚ) * s) : scrollLoop (-s) (k + 1) y = (true, 0) := by
  induction k generalizing y with
  | zero =>
      have hy0 : y = 0 := le_antisymm (by simpa using hk) hy
      simp [scrollLoop, hy0]
  | succ m ih =>
      by_cases h0 : y = 0
      · simp [scrollLoop, h0]
      · have hstep : scrollLoop (-s) (m + 1 + 1) y =
            scrollLoop (-s) (m + 1) (scrollTick (-s) y) := by
          simp [scrollLoop, h0]
        rw [hstep]
        apply ih
        · exact le_max_left 0 _
        · have hexp : ((m : ℚ) + 1) * s = (m : ℚ) * s + s := by ring
          have hms : (0 : ℚ) ≤ (m : ℚ) * s :=
            mul_nonneg (by positivity) hs
          push_cast at hk
          show max 0 (y + -s) ≤ (m : ℚ) * s
          apply max_le hms
          linarith

example : decodeBase64 "AA==" = Except.ok [0] := rfl
example : decodeBase64 "abc!@#" = Except.error DecodeError.invalidCharacter := rfl
example :
    decodeBase64 "SGVsbG8sV29ybGQ=" =
      Except.ok ((String.toList "Hello,World").map Char.toNat) := rfl
example : decodeBase64 (encodeBase64 [0, 100, 255]) = Except.ok [0, 100, 255] := rfl
example : decodeBase64 "AB=A" = Except.error DecodeError.invalidPaddingPosition := rfl
example : decodeBase64 "AbC" = Except.error DecodeError.invalidLength := rfl

/-- Claim C1: for every byte sequence b, decoding the encoding of b
returns b exactly — the Decoder inverts the Encode fixture on all
byte-valued inputs. -/
theorem decode_encode_roundtrip (b : List ℕ) (hb : ∀ x ∈ b, x < 256) :
    decodeBase64 (encodeBase64 b) = Except.ok b :=
  decodeChars_encode b hb

/-- Witness for C1 at the concrete byte sequence [72, 105, 33]. -/
theorem decode_encode_roundtrip_witness :
    (∀ x ∈ [72, 105, 33], x < 256) ∧
      decodeBase64 (encodeBase64 [72, 105, 33]) = Except.ok [72, 105, 33] :=
  ⟨by decide, decode_encode_roundtrip [72, 105, 33] (by decide)⟩

/-- Claim C2: when the dataset source yields the valid EncodedPayload
SGVsbG8sV29ybGQ=, downloadCSV completes successfully and the save
primitive is invoked exactly once, with decoded content equal to the
bytes of Hello,World and content-type text/csv. -/
theorem downloadCSV_success_scenario :
    downloadCSV (some "SGVsbG8sV29ybGQ=") =
      ([{ content := (String.toList "Hello,World").map Char.toNat,
          contentType := "text/csv" }], Except.ok ()) := rfl

/-- Claim C3: malformed payloads are rejected with the DecodeError naming
the offending condition — a character outside the alphabet gives
invalidCharacter; a padding marker followed by a non-padding character
gives invalidPaddingPosition; a length not a multiple of the block size
gives invalidLength — while unusual-but-legal inputs (the empty payload,
and maximal padding decoding to a single zero byte) do not error. -/
theorem decodeBase64_rejects_malformed :
    (∀ s : String, (∃ c ∈ s.toList, charToIndex c = none ∧ c ≠ '=') →
        decodeBase64 s = Except.error DecodeError.invalidCharacter) ∧
    (∀ (s : String) (l1 l2 : List Char) (c : Char),
        s.toList = l1 ++ '=' :: l2 → c ∈ l2 → c ≠ '=' →
        (∀ d ∈ s.toList, legalB64Char d = true) →
        decodeBase64 s = Except.error DecodeError.invalidPaddingPosition) ∧
    (∀ s : String,
        (∀ d ∈ s.toList, legalB64Char d = true) →
        (s.toList.dropWhile (fun c => !(c == '='))).all
          (fun c => c == '=') = true →
        (s.toList.dropWhile (fun c => !(c == '='))).length ≤ 2 →
        ¬ s.toList.length % 4 = 0 →
        decodeBase64 s = Except.error DecodeError.invalidLength) ∧
    decodeBase64 "" = Except.ok [] ∧
    decodeBase64 "AA==" = Except.ok [0] := by
  refine ⟨?_, ?_, ?_, rfl, rfl⟩
  · rintro s ⟨c, hcmem, hidx, hne⟩
    have hfalse : legalB64Char c = false := by
      simp [legalB64Char, hidx, hne]
    have hall : ¬ s.toList.all legalB64Char = true := by
      intro h
      have := List.all_eq_true.mp h c hcmem
      rw [hfalse] at this
      exact Bool.false_ne_true this
    simp only [decodeBase64, decodeChars]
    rw [if_neg hall]
  · intro s l1 l2 c hsplit hcmem hcne hleg
    have hall : s.toList.all legalB64Char = true := List.all_eq_true.mpr hleg
    have hcpad : c ∈ s.toList.dropWhile (fun c => !(c == '=')) := by
      rw [hsplit]
      exact mem_dropWhile_pad l1 l2 c hcmem
    have hpadfail : ¬ (s.toList.dropWhile (fun c => !(c == '='))).all
        (fun c => c == '=') = true := by
      intro h
      have := List.all_eq_true.mp h c hcpad
      exact hcne (by simpa using this)
    simp only [decodeBase64, decodeChars]
    rw [if_pos hall, if_neg hpadfail]
  · intro s hleg hpad hlen hmod
    have hall : s.toList.all legalB64Char = true := List.all_eq_true.mpr hleg
    simp only [decodeBase64, decodeChars]
    rw [if_pos hall, if_pos hpad, if_pos hlen, if_neg hmod]

/-- Witness for C3 at the concrete malformed payloads abc!@#, AB=A and
AbC. -/
theorem decodeBase64_rejects_malformed_witness :
    decodeBase64 "abc!@#" = Except.error DecodeError.invalidCharacter ∧
    decodeBase64 "AB=A" = Except.error DecodeError.invalidPaddingPosition ∧
    decodeBase64 "AbC" = Except.error DecodeError.invalidLength :=
  ⟨decodeBase64_rejects_malformed.1 "abc!@#"
      ⟨'!', by decide, by decide, by decide⟩,
    decodeBase64_rejects_malformed.2.1 "AB=A" ['A', 'B'] ['A'] 'A'
      (by decide) (by decide) (by decide) (by decide),
    decodeBase64_rejects_malformed.2.2.1 "AbC"
      (by decide) rfl (by decide) (by decide)⟩

/-- Claim C4: when the dataset source fails to yield an EncodedPayload,
downloadCSV resolves with the SourceUnavailableError and the save
primitive is never invoked. -/
theorem downloadCSV_source_unavailable :
    downloadCSV none = ([], Except.error ExportError.sourceUnavailable) := rfl

/-- Claim C5: when the retrieved payload fails to decode, downloadCSV
resolves with the very DecodeError raised by the Decoder, unchanged in
kind, and the save primitive is never invoked. -/
theorem downloadCSV_decode_failure (p : String) (e : DecodeError)
    (h : decodeBase64 p = Except.error e) :
    downloadCSV (some p) = ([], Except.error (ExportError.decode e)) := by
  simp only [downloadCSV, h]

/-- Witness for C5 at the concrete payload not-valid-base64!!. -/
theorem downloadCSV_decode_failure_witness :
    decodeBase64 "not-valid-base64!!" =
      Except.error DecodeError.invalidCharacter ∧
    downloadCSV (some "not-valid-base64!!") =
      ([], Except.error (ExportError.decode DecodeError.invalidCharacter)) :=
  ⟨rfl, downloadCSV_decode_failure "not-valid-base64!!"
    DecodeError.invalidCharacter rfl⟩

/-- Claim C6: the Decoder is deterministic and effect-free — two
successive calls on the same payload, threaded through any ambient world
state, return identical DecodedContent and leave the world unchanged. -/
theorem decodeBase64_deterministic (W : Type) (w : W) (p : String) :
    (decodeBase64Eff W p ((decodeBase64Eff W p w).1)).2 =
      (decodeBase64Eff W p w).2 ∧
    (decodeBase64Eff W p ((decodeBase64Eff W p w).1)).1 = w :=
  ⟨rfl, rfl⟩

/-- Claim C7: decoding the empty string succeeds and returns empty
DecodedContent, raising no error. -/
theorem decodeBase64_empty_ok : decodeBase64 "" = Except.ok [] := rfl

/-- Claim C8: invocations of downloadCSV are independent — the only
observable effect of an invocation is appending its own save-file calls
to the host log, a later invocation emits the same calls and outcome
whatever an earlier invocation did, and a click sequence started from any
log just appends the same save calls. -/
theorem downloadCSV_no_shared_state (src1 src2 : Option String)
    (log : List SaveCall) :
    downloadCSVEff src2 (downloadCSVEff src1 log).1 =
      ((downloadCSVEff src1 log).1 ++ (downloadCSV src2).1,
        (downloadCSV src2).2) ∧
    (downloadCSVEff src1 log).2 = (downloadCSV src1).2 ∧
    (∀ srcs : List (Option String),
      runClicks srcs log = log ++ runClicks srcs []) :=
  ⟨rfl, rfl, fun srcs => runClicks_append srcs log⟩

/-- Claim C9: for every initial scroll position, the interval loop
started by scrollToTop terminates — with the step fixed once at click
time to minus scrollY over 20, the position reaches exactly 0 and the
interval is cleared within 21 ticks. -/
theorem scrollToTop_terminates (y0 : ℚ) (h : 0 ≤ y0) :
    scrollToTop y0 21 = (true, 0) := by
  have hk : y0 ≤ ((20 : ℕ) : ℚ) * (y0 / 20) := le_of_eq (by push_cast; ring)
  exact scrollLoop_clears 20 y0 (y0 / 20) h (div_nonneg h (by norm_num)) hk

/-- Witness for C9 at the concrete initial scroll position 0. -/
theorem scrollToTop_terminates_witness :
    (0 : ℚ) ≤ 0 ∧ scrollToTop 0 21 = (true, 0) :=
  ⟨le_refl 0, scrollToTop_terminates 0 (le_refl 0)⟩

/-- Claim C10: the handleDownladData click handler invokes downloadCSV
exactly once, passing no arguments beyond the threaded host state, and
discards the returned outcome — the state advances by exactly the effect
of one call, a call counter increments by exactly one, and the handler
result never depends on the outcome value downloadCSV returns. -/
theorem handleDownladData_calls_once (σ α : Type) (out : σ → α)
    (eff : σ → σ) (s : σ) (o1 o2 : α) (n : ℕ) :
    handleDownladData (fun x => (out x, eff x)) s = eff s ∧
    handleDownladData (fun k => (o1, k + 1)) n = n + 1 ∧
    handleDownladData (fun k => (o1, k + 1)) n =
      handleDownladData (fun k => (o2, k + 1)) n :=
  ⟨rfl, rfl, rfl⟩
